import Mathlib

/-!
Verification of the GhostGraph graph data model and its derived-view
algorithms: blueprint sanitization, root detection and single-root unwrap,
path resolution, export bundling, the export tree listing, the sequential
MVP generation loop, and the focus-on-node camera transform.

Each definition is a shallow embedding of the corresponding TypeScript
function; machine details (JS truthiness, loose equality, `Map` last-wins
lookup, `||` defaulting) are modelled explicitly. Unbounded JS recursion is
modelled with an explicit fuel of `nodes.length + 1`, which is exactly
sufficient for every acyclic parent chain; fuel exhaustion models the
stack-overflow crash a parent cycle would cause and is surfaced as `none`.
-/

/-- Node kinds, from `types.ts` (`FileType`). -/
inductive FileType
  | FILE
  | FOLDER
  | SERVICE
deriving DecidableEq, Repr

/-- Link relation kinds, from `types.ts` (`LinkData.type`). -/
inductive LinkType
  | IMPORT
  | DEPENDENCY
  | DATA_FLOW
deriving DecidableEq, Repr

/-- A graph node, from `types.ts` (`NodeData`). Optional fields are `Option`;
a JS `null` or `undefined` `parentId` is `none`. -/
structure NodeData where
  id : String
  name : String
  type : FileType
  description : Option String := none
  techStack : Option (List String) := none
  parentId : Option String := none
  content : Option String := none
deriving DecidableEq, Repr

/-- A directed link between two node ids, from `types.ts` (`LinkData`). -/
structure LinkData where
  source : String
  target : String
  type : LinkType
deriving DecidableEq, Repr

/-- A graph, from `types.ts` (`GraphData`). -/
structure GraphData where
  nodes : List NodeData
  links : List LinkData
deriving DecidableEq, Repr

/-- JS truthiness of an optional string: `null`/`undefined` and the empty
string are falsy. -/
def strTruthy : Option String → Bool
  | none => false
  | some s => !(s == "")

/-- JS `o || dflt` on an optional string: the empty string also falls back. -/
def jsOr (o : Option String) (dflt : String) : String :=
  match o with
  | none => dflt
  | some s => if s == "" then dflt else s

/-- Blueprint sanitization, from `App.tsx` (`handleGenerateBlueprint`,
lines 244-255): build the set of node ids, keep only links whose `source`
and `target` both exist, leave everything else untouched. -/
def sanitize (g : GraphData) : GraphData :=
  let nodeIds := g.nodes.map NodeData.id
  { g with
    links := g.links.filter (fun l =>
      nodeIds.contains l.source && nodeIds.contains l.target) }

/-- Root detection, from `FileTree.tsx` line 76 / `unnamed/part_001`
line 99: `!n.parentId || !nodes.find(p => p.id === n.parentId)`.
A falsy `parentId` (absent, null, or the empty string) makes a root, as does
a `parentId` matching no node id. -/
def isRoot (nodes : List NodeData) (n : NodeData) : Bool :=
  match n.parentId with
  | none => true
  | some pid => pid == "" || !(nodes.any (fun p => p.id == pid))

/-- The root node list of the tree view, in original node order. -/
def rootNodes (nodes : List NodeData) : List NodeData :=
  nodes.filter (fun n => isRoot nodes n)

/-- The tree view's top-level node sequence, from `unnamed/part_001`
(`FileTree`, lines 99-108): root detection, then the single-root unwrap
heuristic for a lone root named `"."` or `"root"` with at least one child. -/
def topLevel (nodes : List NodeData) : List NodeData :=
  let roots := rootNodes nodes
  match roots with
  | [r] =>
    if r.name == "." || r.name == "root" then
      let children := nodes.filter (fun n => n.parentId == some r.id)
      if 0 < children.length then children else roots
    else roots
  | _ => roots

/-- The export helper's node lookup, from `App.tsx` line 307:
`new Map(nodes.map(n => [n.id, n])).get(id)` — a duplicated id resolves to
the LAST node carrying it, hence the reversed search. -/
def nodeMapGet (nodes : List NodeData) (nid : String) : Option NodeData :=
  nodes.reverse.find? (fun n => n.id == nid)

/-- Path resolution, from `App.tsx` (`getPath`, lines 309-314):
`parentPath = node.parentId ? getPath(node.parentId) : ""` followed by
`parentPath ? parentPath + "/" + node.name : node.name`. A missing node
yields `""`; fuel exhaustion (a parent cycle) yields `none`, modelling the
unbounded-recursion crash of the source. -/
def getPathO (g : GraphData) : Nat → String → Option String
  | 0, _ => none
  | fuel + 1, nid =>
    match nodeMapGet g.nodes nid with
    | none => some ""
    | some node =>
      let pp : Option String :=
        match node.parentId with
        | none => some ""
        | some pid => if pid == "" then some "" else getPathO g fuel pid
      match pp with
      | none => none
      | some parentPath =>
        some (if parentPath == "" then node.name else parentPath ++ "/" ++ node.name)

/-- The slash-join of a name sequence, following the spec's words
"slash-joined sequence of ancestor names from the furthest root down to the
node itself" (spec section 8, property 4). -/
def joinPath : List String → String
  | [] => ""
  | [a] => a
  | a :: rest => a ++ "/" ++ joinPath rest

/-- The parent of a node resolved inside the node set (first occurrence, as
in `nodes.find(p => p.id === n.parentId)`). -/
def parentNode (g : GraphData) (n : NodeData) : Option NodeData :=
  match n.parentId with
  | none => none
  | some pid => g.nodes.find? (fun p => p.id == pid)

/-- The ancestor chain of a node, from the furthest resolvable ancestor down
to the node itself, following the spec's upward walk through `parentId`
references; such a chain exists exactly for terminating (acyclic) walks. -/
inductive Chain (g : GraphData) : NodeData → List NodeData → Prop
  | root {n : NodeData} : parentNode g n = none → Chain g n [n]
  | step {n p : NodeData} {l : List NodeData} :
      parentNode g n = some p → Chain g p l → Chain g n (l ++ [n])

/-- An export bundle entry: a registered folder, or a file with content, as
handed to the archive collaborator (`zip.folder` / `zip.file`). -/
inductive ExportEntry
  | folder (path : String)
  | file (path content : String)
deriving DecidableEq, Repr

/-- Whether a bundle entry is a file entry. -/
def ExportEntry.isFile : ExportEntry → Bool
  | .folder _ => false
  | .file _ _ => true

/-- The placeholder body for a FILE node without generated content, from
`App.tsx` line 336; an absent description prints as the string
`"undefined"`, as the JS template literal does. -/
def filePlaceholder (n : NodeData) : String :=
  "// TODO: Implement " ++ n.name ++ "\n// " ++
    (match n.description with
     | some d => d
     | none => "undefined")

/-- The bundle entry a single node registers, from `App.tsx` lines 331-339:
FOLDER/SERVICE nodes register a folder at their path, all other nodes a file
whose body is `content || placeholder`. Fails (`none`) when path resolution
does not terminate. -/
def entryOfNode (g : GraphData) (n : NodeData) : Option ExportEntry :=
  match getPathO g (g.nodes.length + 1) n.id with
  | none => none
  | some p =>
    if n.type == FileType.FOLDER || n.type == FileType.SERVICE then
      some (ExportEntry.folder p)
    else
      some (ExportEntry.file p (jsOr n.content (filePlaceholder n)))

/-- The per-node bundle registrations of `handleExportZip`, in node order;
a crash while resolving any node's path aborts the whole export. -/
def exportEntriesAux (g : GraphData) : List NodeData → Option (List ExportEntry)
  | [] => some []
  | n :: ns =>
    match entryOfNode g n, exportEntriesAux g ns with
    | some e, some es => some (e :: es)
    | _, _ => none

/-- The export bundle of a graph: the sequence of folder/file registrations
performed by `App.tsx` lines 331-339 (the README manifest is emitted
separately and is not a per-node entry). -/
def exportEntries (g : GraphData) : Option (List ExportEntry) :=
  exportEntriesAux g g.nodes

/-- Children lookup of the tree listing, from `App.tsx` line 318:
`nodes.filter(n => n.parentId == parentId)` — loose equality, so the
top-level call with `null` matches exactly absent/null parents. -/
def childrenOfP (nodes : List NodeData) (pid : Option String) : List NodeData :=
  nodes.filter (fun n => n.parentId == pid)

/-- Indentation by depth, from `"  ".repeat(depth)`. -/
def indentStr (depth : Nat) : String :=
  String.join (List.replicate depth "  ")

/-- The ASCII tree listing walk, from `App.tsx` (`buildTreeString`,
lines 316-326): depth-first over the children relation in original node
order, with box-drawing markers chosen by last-child position. -/
def buildTreeAux (nodes : List NodeData) : Nat → Option String → Nat → String
  | 0, _, _ => ""
  | fuel + 1, pid, depth =>
    let children := childrenOfP nodes pid
    String.join (children.enum.map (fun p =>
      (indentStr depth ++ (if p.1 + 1 == children.length then "└── " else "├── ")
        ++ p.2.name ++ "\n")
      ++ buildTreeAux nodes fuel (some p.2.id) (depth + 1)))

/-- The full tree listing of a graph, starting from the `null` parent. -/
def treeStringOf (g : GraphData) : String :=
  buildTreeAux g.nodes (g.nodes.length + 1) none 0

/-- Per-file code generation result, from `unnamed/part_000`
(`generateFileCode`, lines 798-832): `response.text || "// No code
generated"` — an absent or empty response text falls back to a non-empty
stub. -/
def generateFileCode (respText : Option String) : String :=
  jsOr respText "// No code generated"

/-- `updatedNodes[findIndex(n => n.id === id)] = { ...node, content }`:
replace the content of the FIRST node carrying the id, leave the list
unchanged when the id is absent (the `nodeIndex !== -1` guard). -/
def setContentFirst (nid : String) (code : String) : List NodeData → List NodeData
  | [] => []
  | n :: ns =>
    if n.id == nid then { n with content := some code } :: ns
    else n :: setContentFirst nid code ns

/-- State observed after an MVP generation run: the working node list, the
progress events `(current, fileName)` emitted by the loop iterations that
started, and whether the run completed. -/
structure MvpState where
  nodes : List NodeData
  trace : List (Nat × String)
  ok : Bool
deriving DecidableEq, Repr

/-- The sequential generation loop of `handleGenerateMVP` (`App.tsx`
lines 266-302): iteration `i` first reports progress `(i+1, file.name)`,
then awaits the generator; a thrown step aborts the remaining sequence. The
generator oracle `api i` is `none` when step `i` throws, otherwise `some`
of the response text (itself optional). -/
def mvpLoop (api : Nat → Option (Option String)) :
    Nat → List NodeData → List NodeData → MvpState
  | _, acc, [] => ⟨acc, [], true⟩
  | i, acc, f :: fs =>
    match api i with
    | none => ⟨acc, [(i + 1, f.name)], false⟩
    | some resp =>
      let st := mvpLoop api (i + 1) (setContentFirst f.id (generateFileCode resp) acc) fs
      ⟨st.nodes, (i + 1, f.name) :: st.trace, st.ok⟩

/-- A full MVP generation run over the FILE nodes of a graph: the loop works
on a local copy of the node list, and `setGraphData` commits it only when
every step succeeded — a failed run leaves the graph untouched. Returns the
resulting graph, the progress trace, and the completion flag. -/
def runMVP (g : GraphData) (api : Nat → Option (Option String)) :
    GraphData × List (Nat × String) × Bool :=
  let files := g.nodes.filter (fun n => n.type == FileType.FILE)
  let st := mvpLoop api 0 g.nodes files
  (if st.ok then { g with nodes := st.nodes } else g, st.trace, st.ok)

/-- A d3 zoom transform: uniform scale `k` and translation `(tx, ty)`,
applied as `screen = (x * k + tx, y * k + ty)`. Coordinates are modelled as
rationals. -/
structure ZoomTransform where
  k : ℚ
  tx : ℚ
  ty : ℚ
deriving DecidableEq, Repr

/-- d3 `transform.translate(x, y)`. -/
def ZoomTransform.translate (t : ZoomTransform) (x y : ℚ) : ZoomTransform :=
  ⟨t.k, t.tx + t.k * x, t.ty + t.k * y⟩

/-- d3 `transform.scale(s)`. -/
def ZoomTransform.scale (t : ZoomTransform) (s : ℚ) : ZoomTransform :=
  ⟨t.k * s, t.tx, t.ty⟩

/-- d3 `zoomIdentity`. -/
def zoomIdentity : ZoomTransform := ⟨1, 0, 0⟩

/-- Apply a zoom transform to a simulation-space point. -/
def ZoomTransform.apply (t : ZoomTransform) (p : ℚ × ℚ) : ℚ × ℚ :=
  (t.tx + t.k * p.1, t.ty + t.k * p.2)

/-- A simulated node as the focus effect sees it: an id and the optional
resolved coordinates (`x`/`y` are `undefined` until the simulation places
the node). -/
structure SimNode where
  id : String
  px : Option ℚ
  py : Option ℚ
deriving DecidableEq, Repr

/-- The focus-on-node effect, from `GraphVisualizer.tsx` lines 203-226:
guarded by a truthy trigger token and selected id; looks the node up in the
simulation array; if both coordinates are resolved, replaces the camera by
`zoomIdentity.translate(w/2, h/2).scale(max(k, 1)).translate(-x, -y)`;
otherwise leaves the camera untouched. -/
def focusEffect (focusTrigger : Nat) (selectedNodeId : Option String)
    (nodes : List SimNode) (width height : ℚ) (cam : ZoomTransform) : ZoomTransform :=
  if focusTrigger ≠ 0 then
    match selectedNodeId with
    | none => cam
    | some sid =>
      if sid == "" then cam
      else
        match nodes.find? (fun n => n.id == sid) with
        | none => cam
        | some node =>
          match node.px, node.py with
          | some x, some y =>
            ((zoomIdentity.translate (width / 2) (height / 2)).scale
                (max cam.k 1)).translate (-x) (-y)
          | _, _ => cam
  else cam

/-! Concrete inputs used by example conjuncts, counterexamples and
witnesses. -/

/-- sample graph for the C1 example: node A. -/
def exNodeA : NodeData := { id := "A", name := "A", type := FileType.FILE }

/-- sample node B for the C1 example. -/
def exNodeB : NodeData := { id := "B", name := "B", type := FileType.FILE }

/-- sample link A -> B (both endpoints exist). -/
def exLinkAB : LinkData := { source := "A", target := "B", type := LinkType.IMPORT }

/-- sample link A -> C (dangling target). -/
def exLinkAC : LinkData := { source := "A", target := "C", type := LinkType.IMPORT }

/-- the C1 example graph: nodes `[A,B]`, links `[{A,B},{A,C}]`. -/
def exGraphC1 : GraphData := { nodes := [exNodeA, exNodeB], links := [exLinkAB, exLinkAC] }

/-- a self-parented node: its `parentId` is its own id. -/
def selfParentNode : NodeData :=
  { id := "a", name := "a", type := FileType.FILE, parentId := some "a" }

/-- a dangling-parent node used in the C2 witness. -/
def danglingNode : NodeData :=
  { id := "d", name := "d", type := FileType.FILE, parentId := some "zz" }

/-- the sentinel root node used for the C7 witness. -/
def dotRootNode : NodeData := { id := "r", name := "root", type := FileType.FOLDER }

/-- first child of the sentinel root in the C7 witness. -/
def childX : NodeData :=
  { id := "x", name := "x", type := FileType.FILE, parentId := some "r" }

/-- second child of the sentinel root in the C7 witness. -/
def childY : NodeData :=
  { id := "y", name := "y", type := FileType.FILE, parentId := some "r" }

/-- root node of the C6 counterexample graph. -/
def aRootNode : NodeData := { id := "a", name := "a", type := FileType.FOLDER }

/-- orphan node of the C6 counterexample graph: its parent id `"zz"` matches
no node. -/
def bOrphanNode : NodeData :=
  { id := "b", name := "b", type := FileType.FILE, parentId := some "zz" }

/-- the C6 counterexample graph: one true root and one dangling-parent
orphan. -/
def exGraphC6 : GraphData := { nodes := [aRootNode, bOrphanNode], links := [] }

/-- the C6 witness node: a lone node under a missing parent. -/
def wOrphanNode : NodeData :=
  { id := "w", name := "w", type := FileType.FILE, parentId := some "gone" }

/-- the C6 witness graph. -/
def exGraphC6W : GraphData := { nodes := [wOrphanNode], links := [] }

/-- root node with an empty display name (C5 counterexample). -/
def emptyNameRoot : NodeData := { id := "r", name := "", type := FileType.FOLDER }

/-- child of the empty-named root (C5 counterexample). -/
def appChildNode : NodeData :=
  { id := "c", name := "app", type := FileType.FILE, parentId := some "r" }

/-- the C5 counterexample graph: an empty-named root with one child. -/
def exGraphC5 : GraphData := { nodes := [emptyNameRoot, appChildNode], links := [] }

/-- the `"src"` root of the C5 witness (the spec's own example). -/
def srcFolderNode : NodeData := { id := "s", name := "src", type := FileType.FOLDER }

/-- the `"app.ts"` child of the C5 witness. -/
def appTsNode : NodeData :=
  { id := "t", name := "app.ts", type := FileType.FILE, parentId := some "s" }

/-- the C5 witness graph: root `"src"` with child `"app.ts"`. -/
def exGraphC5W : GraphData := { nodes := [srcFolderNode, appTsNode], links := [] }

/-- folder node of the C4 witness graph. -/
def srcDirNode : NodeData := { id := "d", name := "srcdir", type := FileType.FOLDER }

/-- file node of the C4 witness graph (no generated content). -/
def mainFileNode : NodeData :=
  { id := "m", name := "main.py", type := FileType.FILE,
    description := some "entry", parentId := some "d" }

/-- the C4 witness graph: one folder containing one content-less file. -/
def exGraphC4 : GraphData := { nodes := [srcDirNode, mainFileNode], links := [] }

/-- the expected bundle of the C4 witness graph. -/
def exportEsC4 : List ExportEntry :=
  [ExportEntry.folder "srcdir",
   ExportEntry.file "srcdir/main.py" "// TODO: Implement main.py\n// entry"]

/-- Specification relation between a pre-run node and its post-run
counterpart for a generation run over the FILE list `fs`: identity fields
are untouched; a node targeted by some `fs` member (same id) ends with
non-empty generated content; every other node keeps its content. -/
def MvpRel (fs : List NodeData) (a b : NodeData) : Prop :=
  a.id = b.id ∧ a.name = b.name ∧ a.type = b.type
  ∧ ((∃ f ∈ fs, f.id = a.id) → ∃ c, b.content = some c ∧ c ≠ "")
  ∧ ((¬ ∃ f ∈ fs, f.id = a.id) → b.content = a.content)

/-- first FILE node of the C3 counterexample graph. -/
def fileNodeA3 : NodeData := { id := "fa", name := "fa", type := FileType.FILE }

/-- second FILE node of the C3 counterexample graph. -/
def fileNodeB3 : NodeData := { id := "fb", name := "fb", type := FileType.FILE }

/-- the C3 counterexample graph: two content-less FILE nodes. -/
def exGraphC3 : GraphData := { nodes := [fileNodeA3, fileNodeB3], links := [] }

/-- the C3 generator oracle: step 0 succeeds with `"code"`, step 1 throws. -/
def apiC3 : Nat → Option (Option String) :=
  fun i => if i == 0 then some (some "code") else none

/-- FILE node of the C8 witness graph. -/
def fileNodeC8 : NodeData := { id := "f8", name := "f8.ts", type := FileType.FILE }

/-- FOLDER node of the C8 witness graph. -/
def folderNodeC8 : NodeData := { id := "d8", name := "d8", type := FileType.FOLDER }

/-- the C8 witness graph: one FILE node and one FOLDER node. -/
def exGraphC8 : GraphData := { nodes := [fileNodeC8, folderNodeC8], links := [] }

/-- the C8 generator oracle: every step succeeds with `"body"`. -/
def apiC8 : Nat → Option (Option String) := fun _ => some (some "body")

/-- a placed simulation node for the C9 witness. -/
def simNodeW : SimNode := { id := "n1", px := some 10, py := some 20 }

/-- an unplaced simulation node for the C9 witness (no resolved position). -/
def simNodeU : SimNode := { id := "n2", px := none, py := none }

/-- the initial camera of the C9 witness. -/
def camW : ZoomTransform := { k := 1, tx := 0, ty := 0 }

/-! Theorems. -/

/-- Claim C1: sanitization keeps a subsequence of the original links, every
surviving link's endpoints are ids of the (unchanged) node set, and on the
example graph with nodes `[A,B]` and links `[{A,B},{A,C}]` exactly `[{A,B}]`
survives. -/
theorem sanitize_links_valid (g : GraphData) :
    (sanitize g).links.Sublist g.links
    ∧ (∀ l ∈ (sanitize g).links,
        l.source ∈ (sanitize g).nodes.map NodeData.id
        ∧ l.target ∈ (sanitize g).nodes.map NodeData.id)
    ∧ (sanitize exGraphC1).links = [exLinkAB] := by
  refine ⟨List.filter_sublist _, ?_, by decide⟩
  intro l hl
  have hmem := List.of_mem_filter hl
  have hs : (g.nodes.map NodeData.id).contains l.source = true := by
    exact (Bool.and_eq_true _ _ ▸ hmem).1
  have ht : (g.nodes.map NodeData.id).contains l.target = true := by
    exact (Bool.and_eq_true _ _ ▸ hmem).2
  constructor
  · simpa [sanitize, List.contains, List.elem_iff] using hs
  · simpa [sanitize, List.contains, List.elem_iff] using ht

/-- witness for C1: a concrete surviving link with both endpoints present. -/
theorem sanitize_links_valid_witness :
    exLinkAB.source ∈ (sanitize exGraphC1).nodes.map NodeData.id
    ∧ exLinkAB.target ∈ (sanitize exGraphC1).nodes.map NodeData.id :=
  (sanitize_links_valid exGraphC1).2.1 exLinkAB (by decide)

/-- Claim C10: sanitization is a pure link filter; the node sequence of the
sanitized graph is exactly the input node sequence. -/
theorem sanitize_nodes_unchanged (g : GraphData) :
    (sanitize g).nodes = g.nodes := rfl

/-- counterexample for C2: a node whose `parentId` points to itself is NOT
classified as a root, because the lookup `nodes.find(p => p.id ===
n.parentId)` finds the node itself. The root set of the one-node graph is
empty. -/
theorem self_parent_not_root : rootNodes [selfParentNode] = [] := by decide

/-- Claim C2 (amended): a node with absent/null `parentId` is a root, a node
whose `parentId` matches no node id is a root, but a self-parented node
(with a non-empty id) is NOT a root, since its own id is present in the node
set. Root detection is a pure function of the node list, so re-running it
yields the same root set. -/
theorem root_detection_rule (nodes : List NodeData) (n : NodeData) (hn : n ∈ nodes) :
    (n.parentId = none → isRoot nodes n = true)
    ∧ (∀ pid, n.parentId = some pid → (∀ p ∈ nodes, p.id ≠ pid) → isRoot nodes n = true)
    ∧ (n.parentId = some n.id → n.id ≠ "" → isRoot nodes n = false)
    ∧ rootNodes nodes = rootNodes nodes := by
  refine ⟨?_, ?_, ?_, rfl⟩
  · intro h
    simp [isRoot, h]
  · intro pid h habs
    simp only [isRoot, h]
    have : nodes.any (fun p => p.id == pid) = false := by
      simp only [List.any_eq_false]
      intro p hp
      simpa using habs p hp
    simp [this]
  · intro h hne
    simp only [isRoot, h]
    have hany : nodes.any (fun p => p.id == n.id) = true := by
      simp only [List.any_eq_true]
      exact ⟨n, hn, by simp⟩
    simp [hany, hne]

/-- witness for C2: on a two-node graph, the dangling-parent node is a root
and the self-parented node is not. -/
theorem root_detection_rule_witness :
    isRoot [danglingNode, selfParentNode] danglingNode = true
    ∧ isRoot [danglingNode, selfParentNode] selfParentNode = false := by
  constructor
  · exact (root_detection_rule [danglingNode, selfParentNode] danglingNode
      (by decide)).2.1 "zz" rfl (by decide)
  · exact (root_detection_rule [danglingNode, selfParentNode] selfParentNode
      (by decide)).2.2.1 rfl (by decide)

/-- Claim C7: if root detection yields exactly one root named `"."` or
`"root"`, the tree view's top level is that root's direct children when
there is at least one child, and the root itself when there are none. -/
theorem single_root_unwrap (nodes : List NodeData) (r : NodeData)
    (hr : rootNodes nodes = [r])
    (hname : r.name = "." ∨ r.name = "root") :
    (nodes.filter (fun n => n.parentId == some r.id) ≠ [] →
       topLevel nodes = nodes.filter (fun n => n.parentId == some r.id))
    ∧ (nodes.filter (fun n => n.parentId == some r.id) = [] →
       topLevel nodes = [r]) := by
  have hbeq : (r.name == "." || r.name == "root") = true := by
    rcases hname with h | h <;> simp [h]
  constructor
  · intro hne
    have hlen : 0 < (nodes.filter (fun n => n.parentId == some r.id)).length :=
      List.length_pos.mpr hne
    simp [topLevel, hr, hbeq, hlen]
  · intro hnil
    simp [topLevel, hr, hbeq, hnil]

/-- witness for C7: a lone `"root"`-named root with children `[x, y]`
unwraps to top level `[x, y]`. -/
theorem single_root_unwrap_witness :
    topLevel [dotRootNode, childX, childY] =
      [dotRootNode, childX, childY].filter (fun n => n.parentId == some dotRootNode.id) :=
  (single_root_unwrap [dotRootNode, childX, childY] dotRootNode
    (by decide) (Or.inr rfl)).1 (by decide)

/-- counterexample for C6: in the graph `[a (no parent), b (parent "zz"
missing)]`, the tree view's root detection classifies `b` as a root, but the
export tree listing is exactly the single line for `a` — the character `b`
never occurs in it, so the dangling-parent orphan is dropped from the
listing rather than shown as an additional root. -/
theorem tree_listing_drops_orphan :
    bOrphanNode ∈ rootNodes exGraphC6.nodes
    ∧ treeStringOf exGraphC6 = "└── a\n"
    ∧ (treeStringOf exGraphC6).toList.count 'b' = 0 := by
  refine ⟨by decide, by decide, by decide⟩

/-- Claim C6 (amended): the export tree listing walks depth-first, in
original node order, only from nodes whose `parentId` is absent/null (loose
`== null` match); a node whose `parentId` references a missing node is NOT
an additional root of the listing — in particular, a graph in which every
node has a (possibly dangling) parent reference produces an empty listing,
even though tree-view root detection may report roots. -/
theorem tree_listing_only_null_roots (g : GraphData)
    (h : ∀ n ∈ g.nodes, n.parentId ≠ none) :
    treeStringOf g = "" := by
  have hnil : childrenOfP g.nodes none = [] := by
    simp only [childrenOfP, List.filter_eq_nil_iff]
    intro n hn
    have := h n hn
    cases hpn : n.parentId with
    | none => exact absurd hpn this
    | some pid => simp [hpn]
  simp only [treeStringOf, buildTreeAux, hnil]
  rfl

/-- witness for C6: the one-node graph whose node hangs under a missing
parent yields an empty listing. -/
theorem tree_listing_only_null_roots_witness :
    treeStringOf exGraphC6W = "" :=
  tree_listing_only_null_roots exGraphC6W (by decide)

/-- helper: on a list with pairwise-distinct ids, `find?` by a member's id
returns that member. -/
theorem find_first_by_id (l : List NodeData) (n : NodeData)
    (hnd : (l.map NodeData.id).Nodup) (hn : n ∈ l) :
    l.find? (fun m => m.id == n.id) = some n := by
  induction l with
  | nil => cases hn
  | cons m ms ih =>
    rw [List.map_cons, List.nodup_cons] at hnd
    rcases List.mem_cons.mp hn with rfl | hmem
    · simp [List.find?]
    · have hne : (m.id == n.id) = false := by
        refine beq_eq_false_iff_ne.mpr ?_
        intro he
        exact hnd.1 (he ▸ List.mem_map_of_mem NodeData.id hmem)
      rw [List.find?_cons_of_neg _ (by simp [hne])]
      exact ih hnd.2 hmem

/-- helper: with pairwise-distinct ids, the export `Map` lookup of a
member's id returns that member. -/
theorem nodeMapGet_nodup (nodes : List NodeData) (n : NodeData)
    (hnd : (nodes.map NodeData.id).Nodup) (hn : n ∈ nodes) :
    nodeMapGet nodes n.id = some n := by
  unfold nodeMapGet
  refine find_first_by_id nodes.reverse n ?_ (List.mem_reverse.mpr hn)
  rw [List.map_reverse]
  exact List.nodup_reverse.mpr hnd

/-- helper: the `Map` lookup of an id carried by no node is `none`. -/
theorem nodeMapGet_none (nodes : List NodeData) (nid : String)
    (h : ∀ p ∈ nodes, p.id ≠ nid) :
    nodeMapGet nodes nid = none := by
  unfold nodeMapGet
  refine List.find?_eq_none.mpr ?_
  intro p hp
  simpa using h p (List.mem_reverse.mp hp)

/-- helper: an ancestor chain is never empty. -/
theorem chain_ne_nil {g : GraphData} {n : NodeData} {l : List NodeData}
    (h : Chain g n l) : l ≠ [] := by
  cases h with
  | root _ => simp
  | step _ _ => simp

/-- helper: appending one name to a non-empty join inserts one slash. -/
theorem joinPath_append_single (xs : List String) (x : String) (hxs : xs ≠ []) :
    joinPath (xs ++ [x]) = joinPath xs ++ "/" ++ x := by
  induction xs with
  | nil => cases hxs rfl
  | cons a t ih =>
    cases t with
    | nil => rfl
    | cons b t2 =>
      show a ++ "/" ++ joinPath ((b :: t2) ++ [x]) =
        (a ++ "/" ++ joinPath (b :: t2)) ++ "/" ++ x
      rw [ih (by simp)]
      simp [String.append_assoc]

/-- helper: a join starting with a non-empty name is non-empty. -/
theorem joinPath_cons_ne_empty (a : String) (rest : List String) (ha : a ≠ "") :
    joinPath (a :: rest) ≠ "" := by
  cases rest with
  | nil => simpa [joinPath] using ha
  | cons b t =>
    show a ++ "/" ++ joinPath (b :: t) ≠ ""
    intro hc
    have hlen := congrArg String.length hc
    rw [String.length_append, String.length_append] at hlen
    have h1 : String.length "/" = 1 := rfl
    have h0 : String.length "" = 0 := rfl
    have ha' : a.length ≠ 0 := by
      intro hz
      exact ha (String.ext (List.length_eq_zero.mp hz))
    omega

/-- helper: one unfolding step of `getPathO` at positive fuel. -/
theorem getPathO_succ (g : GraphData) (fuel : Nat) (nid : String) :
    getPathO g (fuel + 1) nid =
      match nodeMapGet g.nodes nid with
      | none => some ""
      | some node =>
        match (match node.parentId with
               | none => some ""
               | some pid => if pid == "" then some "" else getPathO g fuel pid) with
        | none => none
        | some parentPath =>
          some (if parentPath == "" then node.name else parentPath ++ "/" ++ node.name) :=
  rfl

/-- helper: `getPathO` unfolding once the `Map` lookup is known to hit. -/
theorem getPathO_succ_found (g : GraphData) (fuel : Nat) (n : NodeData) (nid : String)
    (h : nodeMapGet g.nodes nid = some n) :
    getPathO g (fuel + 1) nid =
      match (match n.parentId with
             | none => some ""
             | some pid => if pid == "" then some "" else getPathO g fuel pid) with
      | none => none
      | some parentPath =>
        some (if parentPath == "" then n.name else parentPath ++ "/" ++ n.name) := by
  rw [getPathO_succ, h]

/-- Claim C5 (amended): for an acyclic parent chain inside a graph with
pairwise-distinct node ids, in which every chain member has a non-empty name
and no chain member's `parentId` is the empty string, `getPath` returns the
slash-join of the ancestor names from the furthest root down to the node, at
EVERY sufficient recursion budget — so repeated calls are stable. -/
theorem getPath_eq_joinPath (g : GraphData) (n : NodeData) (l : List NodeData)
    (hnodup : (g.nodes.map NodeData.id).Nodup)
    (hn : n ∈ g.nodes)
    (hch : Chain g n l)
    (hname : ∀ m ∈ l, m.name ≠ "")
    (hpid : ∀ m ∈ l, m.parentId ≠ some "")
    (fuel : Nat) (hfuel : l.length < fuel) :
    getPathO g fuel n.id = some (joinPath (l.map NodeData.name)) := by
  revert hn hname hpid hfuel
  induction hch generalizing fuel with
  | @root n hpar =>
    intro hn hname hpid hfuel
    have hf : 1 < fuel := by simpa using hfuel
    obtain ⟨f, rfl⟩ : ∃ f, fuel = f + 1 + 1 := ⟨fuel - 2, by omega⟩
    cases hpn : n.parentId with
    | none =>
      rw [getPathO_succ_found g (f + 1) n n.id (nodeMapGet_nodup g.nodes n hnodup hn), hpn]
      rfl
    | some pid =>
      have hfind : g.nodes.find? (fun q => q.id == pid) = none := by
        unfold parentNode at hpar
        rw [hpn] at hpar
        exact hpar
      have hpidne : pid ≠ "" := by
        have hx := hpid n (by simp)
        rw [hpn] at hx
        simpa using hx
      have hbeq : (pid == "") = false := beq_eq_false_iff_ne.mpr hpidne
      have hget : getPathO g (f + 1) pid = some "" := by
        rw [getPathO_succ]
        rw [nodeMapGet_none g.nodes pid ?hno]
        case hno =>
          intro p hp he
          have hq := List.find?_eq_none.mp hfind p hp
          simp [he] at hq
      rw [getPathO_succ_found g (f + 1) n n.id (nodeMapGet_nodup g.nodes n hnodup hn), hpn]
      simp [hbeq, hget, joinPath]
  | @step n p l' hpar hsub ih =>
    intro hn hname hpid hfuel
    have hf : l'.length + 1 < fuel := by simpa using hfuel
    obtain ⟨f, rfl⟩ : ∃ f, fuel = f + 1 := ⟨fuel - 1, by omega⟩
    have hflen : l'.length < f := by omega
    cases hpn : n.parentId with
    | none =>
      exfalso
      unfold parentNode at hpar
      rw [hpn] at hpar
      cases hpar
    | some pid =>
      have hfind : g.nodes.find? (fun q => q.id == pid) = some p := by
        unfold parentNode at hpar
        rw [hpn] at hpar
        exact hpar
      have hpmem : p ∈ g.nodes := List.mem_of_find?_eq_some hfind
      have hpidp : p.id = pid := by
        have hx := List.find?_some hfind
        simpa using hx
      have hpidne : pid ≠ "" := by
        have hx := hpid n (by simp)
        rw [hpn] at hx
        simpa using hx
      have hbeq : (pid == "") = false := beq_eq_false_iff_ne.mpr hpidne
      obtain ⟨a, t, rfl⟩ := List.exists_cons_of_ne_nil (chain_ne_nil hsub)
      have hrec : getPathO g f pid = some (joinPath ((a :: t).map NodeData.name)) := by
        rw [← hpidp]
        exact ih f hpmem (fun m hm => hname m (List.mem_append_left _ hm))
          (fun m hm => hpid m (List.mem_append_left _ hm)) hflen
      have hane : a.name ≠ "" := hname a (by simp)
      have hjne : joinPath ((a :: t).map NodeData.name) ≠ "" := by
        rw [List.map_cons]
        exact joinPath_cons_ne_empty _ _ hane
      have hjbeq : (joinPath ((a :: t).map NodeData.name) == "") = false :=
        beq_eq_false_iff_ne.mpr hjne
      rw [getPathO_succ_found g f n n.id (nodeMapGet_nodup g.nodes n hnodup hn), hpn]
      have hmapeq : List.map NodeData.name ((a :: t) ++ [n]) =
          List.map NodeData.name (a :: t) ++ [n.name] := by simp
      rw [hmapeq, joinPath_append_single _ _ (by simp)]
      simp [hbeq, hrec, hjbeq]
      intro hq
      exact absurd hq hjne

/-- witness for C5 (amended): the spec's own example — root `"src"` with
child `"app.ts"` resolves to path `"src/app.ts"`. -/
theorem getPath_eq_joinPath_witness :
    getPathO exGraphC5W 3 appTsNode.id = some "src/app.ts" := by
  have h := getPath_eq_joinPath exGraphC5W appTsNode [srcFolderNode, appTsNode]
    (by decide) (by decide)
    (Chain.step (by decide) (Chain.root (by decide)))
    (by decide) (by decide) 3 (by decide)
  simpa using h

/-- counterexample for C5: in the graph whose root has the empty name and
whose child is named `"app"`, the parent chain of the child is acyclic and
stays inside the node set, yet `getPath` yields `"app"` while the
slash-joined ancestor names give `"/app"`. -/
theorem getPath_join_counterexample :
    Chain exGraphC5 appChildNode [emptyNameRoot, appChildNode]
    ∧ getPathO exGraphC5 3 appChildNode.id = some "app"
    ∧ joinPath ([emptyNameRoot, appChildNode].map NodeData.name) = "/app"
    ∧ getPathO exGraphC5 3 appChildNode.id ≠
        some (joinPath ([emptyNameRoot, appChildNode].map NodeData.name)) := by
  refine ⟨Chain.step (by decide) (Chain.root (by decide)), by decide, by decide, by decide⟩

/-- helper: `||` defaulting agrees with `Option.getD` as long as the stored
string is not the empty string. -/
theorem jsOr_eq_getD (o : Option String) (d : String) (h : o ≠ some "") :
    jsOr o d = o.getD d := by
  cases o with
  | none => rfl
  | some s =>
    have hs : (s == "") = false := by
      refine beq_eq_false_iff_ne.mpr ?_
      intro he
      exact h (by rw [he])
    simp [jsOr, hs]

/-- helper: a node kind that is neither FOLDER nor SERVICE is FILE. -/
theorem type_not_container (ty : FileType)
    (h : (ty == FileType.FOLDER || ty == FileType.SERVICE) = false) :
    ty = FileType.FILE := by
  cases ty <;> simp_all

/-- helper: the export bundle of a node list, when the walk succeeds,
contains one file entry per FILE node (with `content`-or-placeholder body)
and one folder entry per FOLDER/SERVICE node. -/
theorem exportEntriesAux_spec (g : GraphData) (l : List NodeData)
    (es : List ExportEntry)
    (hok : exportEntriesAux g l = some es)
    (hc : ∀ n ∈ l, n.content ≠ some "") :
    (es.filter ExportEntry.isFile).length
        = (l.filter (fun n => n.type == FileType.FILE)).length
    ∧ (∀ n ∈ l, n.type = FileType.FILE →
        ∃ p, ExportEntry.file p (n.content.getD (filePlaceholder n)) ∈ es)
    ∧ (∀ p c, ExportEntry.file p c ∈ es →
        ∃ n ∈ l, n.type = FileType.FILE ∧ c = n.content.getD (filePlaceholder n))
    ∧ (∀ n ∈ l, (n.type = FileType.FOLDER ∨ n.type = FileType.SERVICE) →
        ∃ p, ExportEntry.folder p ∈ es) := by
  induction l generalizing es with
  | nil =>
    simp only [exportEntriesAux, Option.some.injEq] at hok
    subst hok
    refine ⟨rfl, by simp, by simp, by simp⟩
  | cons n ns ih =>
    simp only [exportEntriesAux] at hok
    cases he : entryOfNode g n with
    | none => rw [he] at hok; cases hok
    | some e =>
      rw [he] at hok
      cases hes : exportEntriesAux g ns with
      | none => rw [hes] at hok; cases hok
      | some es' =>
        rw [hes] at hok
        simp only [Option.some.injEq] at hok
        subst hok
        obtain ⟨ihlen, ihfile, ihsrc, ihfold⟩ :=
          ih es' hes (fun m hm => hc m (List.mem_cons_of_mem n hm))
        have hcn : n.content ≠ some "" := hc n (List.mem_cons_self n ns)
        simp only [entryOfNode] at he
        cases hpath : getPathO g (g.nodes.length + 1) n.id with
        | none => rw [hpath] at he; cases he
        | some path =>
          rw [hpath] at he
          cases hcont : (n.type == FileType.FOLDER || n.type == FileType.SERVICE) with
          | true =>
            rw [hcont] at he
            simp at he
            subst he
            have hnotfile : (n.type == FileType.FILE) = false := by
              cases htyp : n.type <;> rw [htyp] at hcont <;> simp_all
            refine ⟨?_, ?_, ?_, ?_⟩
            · simpa [ExportEntry.isFile, hnotfile] using ihlen
            · intro m hm hmfile
              rcases List.mem_cons.mp hm with rfl | hmem
              · rw [hmfile] at hnotfile; simp at hnotfile
              · obtain ⟨p, hp⟩ := ihfile m hmem hmfile
                exact ⟨p, List.mem_cons_of_mem _ hp⟩
            · intro p c hpc
              rcases List.mem_cons.mp hpc with heq | hmem
              · cases heq
              · obtain ⟨m, hmem', hrest⟩ := ihsrc p c hmem
                exact ⟨m, List.mem_cons_of_mem n hmem', hrest⟩
            · intro m hm hmk
              rcases List.mem_cons.mp hm with rfl | hmem
              · exact ⟨path, List.mem_cons_self _ _⟩
              · obtain ⟨p, hp⟩ := ihfold m hmem hmk
                exact ⟨p, List.mem_cons_of_mem _ hp⟩
          | false =>
            rw [hcont] at he
            simp at he
            subst he
            have hfile : n.type = FileType.FILE := type_not_container n.type hcont
            have hbody : jsOr n.content (filePlaceholder n)
                = n.content.getD (filePlaceholder n) := jsOr_eq_getD _ _ hcn
            refine ⟨?_, ?_, ?_, ?_⟩
            · simpa [ExportEntry.isFile, hfile] using congrArg Nat.succ ihlen
            · intro m hm hmfile
              rcases List.mem_cons.mp hm with rfl | hmem
              · exact ⟨path, by rw [← hbody]; exact List.mem_cons_self _ _⟩
              · obtain ⟨p, hp⟩ := ihfile m hmem hmfile
                exact ⟨p, List.mem_cons_of_mem _ hp⟩
            · intro p c hpc
              rcases List.mem_cons.mp hpc with heq | hmem
              · refine ⟨n, List.mem_cons_self _ _, hfile, ?_⟩
                cases heq
                rw [hbody]
              · obtain ⟨m, hmem', hrest⟩ := ihsrc p c hmem
                exact ⟨m, List.mem_cons_of_mem n hmem', hrest⟩
            · intro m hm hmk
              rcases List.mem_cons.mp hm with rfl | hmem
              · rcases hmk with hk | hk <;> rw [hfile] at hk <;> cases hk
              · obtain ⟨p, hp⟩ := ihfold m hmem hmk
                exact ⟨p, List.mem_cons_of_mem _ hp⟩

/-- Claim C4: when the export walk succeeds, the bundle holds exactly one
file entry per FILE node, whose body is the node's generated content when
present and otherwise a placeholder containing the node's name, plus a
folder entry for every FOLDER or SERVICE node. (Graphs are assumed not to
carry the degenerate `content = ""`, which only generation — never — can
produce.) -/
theorem export_bundle (g : GraphData) (es : List ExportEntry)
    (hok : exportEntries g = some es)
    (hc : ∀ n ∈ g.nodes, n.content ≠ some "") :
    (es.filter ExportEntry.isFile).length
        = (g.nodes.filter (fun n => n.type == FileType.FILE)).length
    ∧ (∀ n ∈ g.nodes, n.type = FileType.FILE →
        ∃ p, ExportEntry.file p (n.content.getD (filePlaceholder n)) ∈ es)
    ∧ (∀ p c, ExportEntry.file p c ∈ es →
        ∃ n ∈ g.nodes, n.type = FileType.FILE ∧ c = n.content.getD (filePlaceholder n))
    ∧ (∀ n ∈ g.nodes, (n.type = FileType.FOLDER ∨ n.type = FileType.SERVICE) →
        ∃ p, ExportEntry.folder p ∈ es)
    ∧ (∀ n : NodeData, ∃ s t, filePlaceholder n = s ++ n.name ++ t) := by
  obtain ⟨h1, h2, h3, h4⟩ := exportEntriesAux_spec g g.nodes es hok hc
  refine ⟨h1, h2, h3, h4, ?_⟩
  intro n
  exact ⟨"// TODO: Implement ", "\n// " ++
    (match n.description with
     | some d => d
     | none => "undefined"), by simp [filePlaceholder, String.append_assoc]⟩

/-- witness for C4: the two-node graph (folder `srcdir`, content-less file
`main.py`) exports one folder entry and one file entry whose placeholder
contains the file's name. -/
theorem export_bundle_witness :
    (exportEsC4.filter ExportEntry.isFile).length
        = (exGraphC4.nodes.filter (fun n => n.type == FileType.FILE)).length
    ∧ (∀ n ∈ exGraphC4.nodes, n.type = FileType.FILE →
        ∃ p, ExportEntry.file p (n.content.getD (filePlaceholder n)) ∈ exportEsC4)
    ∧ (∀ p c, ExportEntry.file p c ∈ exportEsC4 →
        ∃ n ∈ exGraphC4.nodes, n.type = FileType.FILE
          ∧ c = n.content.getD (filePlaceholder n))
    ∧ (∀ n ∈ exGraphC4.nodes,
        (n.type = FileType.FOLDER ∨ n.type = FileType.SERVICE) →
        ∃ p, ExportEntry.folder p ∈ exportEsC4)
    ∧ (∀ n : NodeData, ∃ s t, filePlaceholder n = s ++ n.name ++ t) :=
  export_bundle exGraphC4 exportEsC4 (by decide) (by decide)

/-- helper: the generated code of a successful step is never empty. -/
theorem generateFileCode_ne_empty (o : Option String) : generateFileCode o ≠ "" := by
  cases o with
  | none => decide
  | some s =>
    show (if (s == "") = true then "// No code generated" else s) ≠ ""
    by_cases hs : s = ""
    · subst hs
      decide
    · have hb : (s == "") = false := beq_eq_false_iff_ne.mpr hs
      rw [hb]
      simpa using hs

/-- helper: a content update never changes the id sequence. -/
theorem setContentFirst_map_id (nid code : String) (ns : List NodeData) :
    (setContentFirst nid code ns).map NodeData.id = ns.map NodeData.id := by
  induction ns with
  | nil => rfl
  | cons m ms ih =>
    by_cases hm : (m.id == nid) = true
    · simp [setContentFirst, hm]
    · simp only [Bool.not_eq_true] at hm
      simp [setContentFirst, hm, ih]

/-- helper: on a list with distinct ids, a content update rewrites exactly
the node carrying the id and leaves every other node untouched. -/
theorem setContentFirst_forall2 (nid code : String) (ns : List NodeData)
    (hnd : (ns.map NodeData.id).Nodup) :
    List.Forall₂ (fun a b =>
      (a.id = nid → b = { a with content := some code })
      ∧ (a.id ≠ nid → b = a)) ns (setContentFirst nid code ns) := by
  induction ns with
  | nil => exact List.Forall₂.nil
  | cons m ms ih =>
    rw [List.map_cons, List.nodup_cons] at hnd
    by_cases hm : (m.id == nid) = true
    · have hmeq : m.id = nid := by simpa using hm
      have hred : setContentFirst nid code (m :: ms)
          = { m with content := some code } :: ms := by
        simp [setContentFirst, hm]
      rw [hred]
      refine List.Forall₂.cons ⟨fun _ => rfl, fun hne => absurd hmeq hne⟩ ?_
      have hall : ∀ a ∈ ms, a.id ≠ nid := by
        intro a ha he
        exact hnd.1 (hmeq ▸ he ▸ List.mem_map_of_mem NodeData.id ha)
      refine List.forall₂_same.mpr ?_
      intro a ha
      exact ⟨fun he => absurd he (hall a ha), fun _ => rfl⟩
    · simp only [Bool.not_eq_true] at hm
      have hne : m.id ≠ nid := beq_eq_false_iff_ne.mp hm
      have hred : setContentFirst nid code (m :: ms)
          = m :: setContentFirst nid code ms := by
        simp [setContentFirst, hm]
      rw [hred]
      exact List.Forall₂.cons ⟨fun he => absurd he hne, fun _ => rfl⟩ (ih hnd.2)

/-- helper: a right member of a `Forall₂` has a related left member. -/
theorem forall2_exists_left {α β : Type} {R : α → β → Prop} {l₁ : List α}
    {l₂ : List β} (h : List.Forall₂ R l₁ l₂) :
    ∀ b ∈ l₂, ∃ a ∈ l₁, R a b := by
  induction h with
  | nil => intro b hb; cases hb
  | cons hr hrest ih =>
    intro b hb
    rcases List.mem_cons.mp hb with rfl | hb2
    · exact ⟨_, List.mem_cons_self _ _, hr⟩
    · obtain ⟨a, ha, har⟩ := ih b hb2
      exact ⟨a, List.mem_cons_of_mem _ ha, har⟩

/-- helper: `Forall₂` composes along an intermediate list. -/
theorem forall2_comp {α β γ : Type} {R : α → β → Prop} {S : β → γ → Prop}
    {l₁ : List α} {l₂ : List β} {l₃ : List γ}
    (h₁ : List.Forall₂ R l₁ l₂) (h₂ : List.Forall₂ S l₂ l₃) :
    List.Forall₂ (fun a c => ∃ b, R a b ∧ S b c) l₁ l₃ := by
  induction h₁ generalizing l₃ with
  | nil => cases h₂; exact List.Forall₂.nil
  | cons hr hrest ih =>
    cases h₂ with
    | cons hs hrest2 => exact List.Forall₂.cons ⟨_, hr, hs⟩ (ih hrest2)

/-- helper: a successful generation loop reports progress `i+1 .. i+k` in
list order and transforms the working list pointwise per `MvpRel`. -/
theorem mvpLoop_success (api : Nat → Option (Option String)) (fs : List NodeData) :
    ∀ (i : Nat) (acc : List NodeData),
    (∀ j, j < fs.length → (api (i + j)).isSome) →
    (acc.map NodeData.id).Nodup →
    (mvpLoop api i acc fs).ok = true
    ∧ (mvpLoop api i acc fs).trace
        = List.zip (List.range' (i + 1) fs.length) (fs.map NodeData.name)
    ∧ List.Forall₂ (MvpRel fs) acc (mvpLoop api i acc fs).nodes := by
  induction fs with
  | nil =>
    intro i acc hapi hnd
    refine ⟨rfl, by simp [mvpLoop], ?_⟩
    refine List.forall₂_same.mpr ?_
    intro a _
    exact ⟨rfl, rfl, rfl, fun ⟨f, hf, _⟩ => absurd hf (by simp), fun _ => rfl⟩
  | cons f fs ih =>
    intro i acc hapi hnd
    have hs0 : (api i).isSome := by simpa using hapi 0 (by simp)
    obtain ⟨resp, hresp⟩ := Option.isSome_iff_exists.mp hs0
    have hred : mvpLoop api i acc (f :: fs)
        = ⟨(mvpLoop api (i + 1) (setContentFirst f.id (generateFileCode resp) acc) fs).nodes,
           (i + 1, f.name) ::
             (mvpLoop api (i + 1) (setContentFirst f.id (generateFileCode resp) acc) fs).trace,
           (mvpLoop api (i + 1) (setContentFirst f.id (generateFileCode resp) acc) fs).ok⟩ := by
      simp [mvpLoop, hresp]
    have hapi2 : ∀ j, j < fs.length → (api (i + 1 + j)).isSome := by
      intro j hj
      have harith : i + 1 + j = i + (j + 1) := by omega
      rw [harith]
      refine hapi (j + 1) ?_
      simp only [List.length_cons]
      omega
    have hnd2 : ((setContentFirst f.id (generateFileCode resp) acc).map NodeData.id).Nodup := by
      rw [setContentFirst_map_id]
      exact hnd
    obtain ⟨hok, htr, hfa⟩ :=
      ih (i + 1) (setContentFirst f.id (generateFileCode resp) acc) hapi2 hnd2
    have hupd := setContentFirst_forall2 f.id (generateFileCode resp) acc hnd
    refine ⟨by rw [hred]; exact hok, ?_, ?_⟩
    · rw [hred]
      dsimp only
      rw [htr]
      have hlen : (f :: fs).length = fs.length + 1 := rfl
      rw [hlen, List.range'_succ, List.map_cons, List.zip_cons_cons]
    · rw [hred]
      dsimp only
      have hcomp := forall2_comp hupd hfa
      refine List.Forall₂.imp ?_ hcomp
      intro a c hac
      obtain ⟨b, hab, hbc⟩ := hac
      obtain ⟨hbpos, hbneg⟩ := hab
      unfold MvpRel at hbc ⊢
      obtain ⟨hid, hnm, hty, hpos2, hneg2⟩ := hbc
      by_cases haf : a.id = f.id
      · have hb : b = { a with content := some (generateFileCode resp) } := hbpos haf
        subst hb
        refine ⟨hid, hnm, hty, ?_, ?_⟩
        · intro _
          by_cases hafs : ∃ f2 ∈ fs, f2.id = a.id
          · exact hpos2 hafs
          · have hcc := hneg2 hafs
            exact ⟨generateFileCode resp, by rw [hcc], generateFileCode_ne_empty resp⟩
        · intro hno
          exact absurd ⟨f, List.mem_cons_self _ _, haf.symm⟩ hno
      · have hb : b = a := hbneg haf
        subst hb
        refine ⟨hid, hnm, hty, ?_, ?_⟩
        · intro hex
          obtain ⟨f2, hf2, hfid2⟩ := hex
          rcases List.mem_cons.mp hf2 with rfl | hf2mem
          · exact absurd hfid2.symm haf
          · exact hpos2 ⟨f2, hf2mem, hfid2⟩
        · intro hno
          refine hneg2 ?_
          intro hex2
          obtain ⟨f2, hf2, hfid2⟩ := hex2
          exact hno ⟨f2, List.mem_cons_of_mem _ hf2, hfid2⟩

/-- helper: a loop whose step `j` throws (after `j` successful steps) stops
with exactly `j+1` progress events and reports failure. -/
theorem mvpLoop_failure (api : Nat → Option (Option String)) (fs : List NodeData) :
    ∀ (i : Nat) (acc : List NodeData) (j : Nat),
    j < fs.length → api (i + j) = none → (∀ t, t < j → (api (i + t)).isSome) →
    (mvpLoop api i acc fs).ok = false
    ∧ (mvpLoop api i acc fs).trace.length = j + 1 := by
  induction fs with
  | nil =>
    intro i acc j hj _ _
    simp at hj
  | cons f fs ih =>
    intro i acc j hj hfail hpre
    cases j with
    | zero =>
      have h0 : api i = none := by simpa using hfail
      have hred : mvpLoop api i acc (f :: fs) = ⟨acc, [(i + 1, f.name)], false⟩ := by
        simp [mvpLoop, h0]
      rw [hred]
      exact ⟨rfl, rfl⟩
    | succ t =>
      have hs0 : (api i).isSome := by simpa using hpre 0 (by omega)
      obtain ⟨resp, hresp⟩ := Option.isSome_iff_exists.mp hs0
      have hred : mvpLoop api i acc (f :: fs)
          = ⟨(mvpLoop api (i + 1) (setContentFirst f.id (generateFileCode resp) acc) fs).nodes,
             (i + 1, f.name) ::
               (mvpLoop api (i + 1) (setContentFirst f.id (generateFileCode resp) acc) fs).trace,
             (mvpLoop api (i + 1) (setContentFirst f.id (generateFileCode resp) acc) fs).ok⟩ := by
        simp [mvpLoop, hresp]
      have hj2 : t < fs.length := by
        simp only [List.length_cons] at hj
        omega
      have hfail2 : api (i + 1 + t) = none := by
        have harith : i + 1 + t = i + (t + 1) := by omega
        rw [harith]
        exact hfail
      have hpre2 : ∀ u, u < t → (api (i + 1 + u)).isSome := by
        intro u hu
        have harith : i + 1 + u = i + (u + 1) := by omega
        rw [harith]
        exact hpre (u + 1) (by omega)
      obtain ⟨hok, hlen⟩ := ih (i + 1)
        (setContentFirst f.id (generateFileCode resp) acc) t hj2 hfail2 hpre2
      rw [hred]
      dsimp only
      exact ⟨hok, by simp [hlen]⟩

/-- counterexample for C3: with two FILE nodes where step 0 succeeds with
`"code"` and step 1 throws, the resulting graph is EXACTLY the input graph —
the content produced by the completed step 0 is NOT retained (both contents
are still `none`), and the run reports failure. -/
theorem mvp_no_retention :
    (runMVP exGraphC3 apiC3).1 = exGraphC3
    ∧ (runMVP exGraphC3 apiC3).1.nodes.map NodeData.content = [none, none]
    ∧ (runMVP exGraphC3 apiC3).2.2 = false := by
  refine ⟨by decide, by decide, by decide⟩

/-- Claim C3 (amended): if step `j` of an MVP run throws after `j`
successful steps, the remaining sequence is aborted — exactly `j+1`
progress events were emitted — and the graph is left exactly as before the
run: content updates from already-completed steps are DISCARDED (they lived
only in a local working copy, committed only on full success). -/
theorem mvp_failure_rollback (g : GraphData) (api : Nat → Option (Option String)) (j : Nat)
    (hj : j < (g.nodes.filter (fun n => n.type == FileType.FILE)).length)
    (hfail : api j = none)
    (hpre : ∀ t, t < j → (api t).isSome) :
    (runMVP g api).1 = g
    ∧ (runMVP g api).2.1.length = j + 1
    ∧ (runMVP g api).2.2 = false := by
  obtain ⟨hok, hlen⟩ := mvpLoop_failure api
    (g.nodes.filter (fun n => n.type == FileType.FILE)) 0 g.nodes j hj
    (by simpa using hfail) (fun t ht => by simpa using hpre t ht)
  have hsplit : runMVP g api
      = (if (mvpLoop api 0 g.nodes (g.nodes.filter (fun n => n.type == FileType.FILE))).ok = true
         then { g with
                nodes := (mvpLoop api 0 g.nodes
                  (g.nodes.filter (fun n => n.type == FileType.FILE))).nodes }
         else g,
         (mvpLoop api 0 g.nodes (g.nodes.filter (fun n => n.type == FileType.FILE))).trace,
         (mvpLoop api 0 g.nodes (g.nodes.filter (fun n => n.type == FileType.FILE))).ok) := rfl
  rw [hsplit, hok]
  exact ⟨by simp, by simpa using hlen, rfl⟩

/-- witness for C3 (amended): on the two-FILE-node graph whose generator
throws at step 1, the run aborts after two progress events and leaves the
graph untouched. -/
theorem mvp_failure_rollback_witness :
    (runMVP exGraphC3 apiC3).1 = exGraphC3
    ∧ (runMVP exGraphC3 apiC3).2.1.length = 1 + 1
    ∧ (runMVP exGraphC3 apiC3).2.2 = false :=
  mvp_failure_rollback exGraphC3 apiC3 1 (by decide) (by decide)
    (fun t ht => by
      have ht0 : t = 0 := by omega
      subst ht0
      decide)

/-- Claim C8: a fully successful MVP run over the `k` FILE nodes emits the
progress values `1, 2, …, k` strictly increasing in node-list order paired
with the file names in node-list order, and afterwards every FILE node
carries non-empty content while every non-FILE node still has none
(given distinct node ids and initially content-free non-FILE nodes). -/
theorem mvp_progress_monotone (g : GraphData) (api : Nat → Option (Option String))
    (hids : (g.nodes.map NodeData.id).Nodup)
    (hnc : ∀ n ∈ g.nodes, n.type ≠ FileType.FILE → n.content = none)
    (hapi : ∀ j, j < (g.nodes.filter (fun n => n.type == FileType.FILE)).length →
      (api j).isSome) :
    (runMVP g api).2.2 = true
    ∧ (runMVP g api).2.1.map Prod.fst
        = List.range' 1 (g.nodes.filter (fun n => n.type == FileType.FILE)).length
    ∧ (runMVP g api).2.1.map Prod.snd
        = (g.nodes.filter (fun n => n.type == FileType.FILE)).map NodeData.name
    ∧ (∀ n ∈ (runMVP g api).1.nodes, n.type = FileType.FILE →
        ∃ c, n.content = some c ∧ c ≠ "")
    ∧ (∀ n ∈ (runMVP g api).1.nodes, n.type ≠ FileType.FILE → n.content = none) := by
  obtain ⟨hok, htr, hfa⟩ := mvpLoop_success api
    (g.nodes.filter (fun n => n.type == FileType.FILE)) 0 g.nodes
    (fun j hj => by simpa using hapi j hj) hids
  have hsplit : runMVP g api
      = (if (mvpLoop api 0 g.nodes (g.nodes.filter (fun n => n.type == FileType.FILE))).ok = true
         then { g with
                nodes := (mvpLoop api 0 g.nodes
                  (g.nodes.filter (fun n => n.type == FileType.FILE))).nodes }
         else g,
         (mvpLoop api 0 g.nodes (g.nodes.filter (fun n => n.type == FileType.FILE))).trace,
         (mvpLoop api 0 g.nodes (g.nodes.filter (fun n => n.type == FileType.FILE))).ok) := rfl
  rw [hsplit, hok, if_pos rfl]
  dsimp only
  refine ⟨rfl, ?_, ?_, ?_, ?_⟩
  · rw [htr]
    refine List.map_fst_zip _ _ ?_
    simp
  · rw [htr]
    refine List.map_snd_zip _ _ ?_
    simp
  · intro b hb hbty
    obtain ⟨a, ha, har⟩ := forall2_exists_left hfa b hb
    unfold MvpRel at har
    obtain ⟨hid, hnm, hty, hpos, hneg⟩ := har
    refine hpos ⟨a, ?_, rfl⟩
    refine List.mem_filter.mpr ⟨ha, ?_⟩
    simp [hty.trans hbty]
  · intro b hb hbty
    obtain ⟨a, ha, har⟩ := forall2_exists_left hfa b hb
    unfold MvpRel at har
    obtain ⟨hid, hnm, hty, hpos, hneg⟩ := har
    have hanot : a.type ≠ FileType.FILE := fun he => hbty (hty ▸ he)
    have hnof : ¬∃ f ∈ g.nodes.filter (fun n => n.type == FileType.FILE), f.id = a.id := by
      intro hex
      obtain ⟨f, hf, hfid⟩ := hex
      have hfg : f ∈ g.nodes := (List.mem_filter.mp hf).1
      have hft : (f.type == FileType.FILE) = true := (List.mem_filter.mp hf).2
      have hfeq : f = a := List.inj_on_of_nodup_map hids hfg ha hfid
      rw [hfeq] at hft
      exact hanot (by simpa using hft)
    rw [hneg hnof]
    exact hnc a ha hanot

/-- witness for C8: on the graph with one FILE node and one FOLDER node
under an always-succeeding generator, the run reports progress `[1]` for the
file, fills the FILE node with non-empty content and leaves the FOLDER node
content-less. -/
theorem mvp_progress_monotone_witness :
    (runMVP exGraphC8 apiC8).2.2 = true
    ∧ (runMVP exGraphC8 apiC8).2.1.map Prod.fst
        = List.range' 1 (exGraphC8.nodes.filter (fun n => n.type == FileType.FILE)).length
    ∧ (runMVP exGraphC8 apiC8).2.1.map Prod.snd
        = (exGraphC8.nodes.filter (fun n => n.type == FileType.FILE)).map NodeData.name
    ∧ (∀ n ∈ (runMVP exGraphC8 apiC8).1.nodes, n.type = FileType.FILE →
        ∃ c, n.content = some c ∧ c ≠ "")
    ∧ (∀ n ∈ (runMVP exGraphC8 apiC8).1.nodes, n.type ≠ FileType.FILE → n.content = none) :=
  mvp_progress_monotone exGraphC8 apiC8 (by decide) (by decide) (fun j hj => rfl)

/-- Claim C9: for a focus request with a truthy trigger token and selected
node id, the camera is left exactly unchanged when the node is not in the
simulation array or lacks a resolved coordinate; when both coordinates are
resolved, the new camera transform maps the node's simulation position to
the viewport centre `(w/2, h/2)`. -/
theorem focus_effect_spec (trig : Nat) (sid : String) (nodes : List SimNode)
    (w hgt : ℚ) (cam : ZoomTransform)
    (htrig : trig ≠ 0) (hsid : sid ≠ "") :
    (nodes.find? (fun n => n.id == sid) = none →
      focusEffect trig (some sid) nodes w hgt cam = cam)
    ∧ (∀ node, nodes.find? (fun n => n.id == sid) = some node →
        (node.px = none ∨ node.py = none) →
        focusEffect trig (some sid) nodes w hgt cam = cam)
    ∧ (∀ node x y, nodes.find? (fun n => n.id == sid) = some node →
        node.px = some x → node.py = some y →
        (focusEffect trig (some sid) nodes w hgt cam).apply (x, y) = (w / 2, hgt / 2)) := by
  have hsb : (sid == "") = false := beq_eq_false_iff_ne.mpr hsid
  refine ⟨?_, ?_, ?_⟩
  · intro hfind
    simp [focusEffect, htrig, hsb, hfind]
  · intro node hfind hnopos
    rcases hnopos with hpx | hpy
    · simp [focusEffect, htrig, hsb, hfind, hpx]
    · cases hpx : node.px with
      | none => simp [focusEffect, htrig, hsb, hfind, hpx]
      | some x => simp [focusEffect, htrig, hsb, hfind, hpx, hpy]
  · intro node x y hfind hpx hpy
    simp [focusEffect, htrig, hsb, hfind, hpx, hpy,
      ZoomTransform.apply, ZoomTransform.translate, ZoomTransform.scale, zoomIdentity]

/-- witness for C9: with trigger token 1, selected id `"n1"`, a placed node
at `(10, 20)` and the identity camera in a `100 × 80` viewport, the focus
transform maps `(10, 20)` to the centre `(50, 40)`; an unplaced selected
node leaves the camera untouched. -/
theorem focus_effect_spec_witness :
    (focusEffect 1 (some "n1") [simNodeW, simNodeU] 100 80 camW).apply (10, 20) = (50, 40)
    ∧ focusEffect 1 (some "n2") [simNodeW, simNodeU] 100 80 camW = camW := by
  constructor
  · have h := (focus_effect_spec 1 "n1" [simNodeW, simNodeU] 100 80 camW
      (by decide) (by decide)).2.2 simNodeW 10 20 (by decide) rfl rfl
    have h50 : (100 : ℚ) / 2 = 50 := by norm_num
    have h40 : (80 : ℚ) / 2 = 40 := by norm_num
    rw [h50, h40] at h
    exact h
  · exact (focus_effect_spec 1 "n2" [simNodeW, simNodeU] 100 80 camW
      (by decide) (by decide)).2.1 simNodeU (by decide) (Or.inl rfl)
